import Mathlib

/-
Verification of the ae structured-error library (github.com/aledantee/ae).

The development shallowly embeds the Go sources: Go interface values of type
error are modelled by the inductive type Err, whose nil constructor stands for
the nil interface value, whose ae constructor carries the record backing the
concrete type Ae (ae.go), and whose foreign constructor models an arbitrary
foreign error through the optional capability interfaces of the package
(message.go, usermessage.go, recoverable.go, spanid.go, related.go, stacks.go
and the exit-code, code, tags, attributes and causes files). A capability
field holding none means the dynamic type does not implement that single-method
interface; some v means it implements it and the method returns v.

Machine integers are modelled by Int (Go int), instants by Int ticks, strings
by String, maps by association lists together with an explicit iteration-order
oracle (KeyOrder) wherever Go map iteration order would be observed, because
that order is unspecified in Go. Functions that Go can abort with a runtime
panic are modelled with Except.
-/

set_option maxHeartbeats 2000000
set_option linter.unusedVariables false

namespace AeSpec

/-- Model of StackFrame (stacks.go appendix): one frame of a stack trace. -/
structure StackFrame where
  func : String
  file : String
  line : Int

/-- Model of Stack (stacks.go appendix): a goroutine stack snapshot. The
ancestor pointer makes the type recursive, hence an inductive. -/
inductive Stack where
  | mk (id : Int) (state : String) (wait : Int) (locked : Bool)
      (frames : List StackFrame) (framesElided : Bool)
      (createdBy : Option StackFrame) (ancestor : Option Stack) : Stack

/-- Record backing the concrete error type Ae (ae.go). Field defaults are the
Go zero values, which is what the builder in builder.go starts from; in
particular the zero value of the recoverable flag is false. The Go field
stacks is called stackTraces here only because stacks is a reserved word in
this environment. Tags model the key set of the Go map, attributes the
entries of the Go map, both in canonical list form. -/
structure AeData (ε : Type) where
  msg : String := ""
  userMsg : String := ""
  hint : String := ""
  recoverable : Bool := false
  timestamp : Int := 0
  code : String := ""
  exitCode : Int := 0
  traceId : String := ""
  spanId : String := ""
  tags : List String := []
  attributes : List (String × String) := []
  causes : List ε := []
  related : List ε := []
  stackTraces : List Stack := []

/-- A foreign error: the text its generic method Error() returns, plus one
optional field per capability interface of the package. unwrapMany and
unwrapOne model the standard Unwrap conventions, legacyCause models the
Cause() convention; all three are consulted only by the Causes probe. -/
structure ForeignData (ε : Type) where
  errText : String := ""
  msgCap : Option String := none
  userMsgCap : Option String := none
  hintCap : Option String := none
  codeCap : Option String := none
  traceIdCap : Option String := none
  spanIdCap : Option String := none
  recoverableCap : Option Bool := none
  exitCodeCap : Option Int := none
  timestampCap : Option Int := none
  tagsCap : Option (List String) := none
  attrsCap : Option (List (String × String)) := none
  causesCap : Option (List ε) := none
  unwrapMany : Option (List ε) := none
  unwrapOne : Option ε := none
  legacyCause : Option ε := none
  relatedCap : Option (List ε) := none
  stacksCap : Option (List Stack) := none

/-- A Go error interface value: nil, a value of the library type Ae, or a
foreign error exposing some subset of the capability interfaces. -/
inductive Err where
  | nil : Err
  | ae (d : AeData Err) : Err
  | foreign (f : ForeignData Err) : Err

/-- Model of the Go comparison err == nil. -/
def isNil : Err → Bool
  | .nil => true
  | _ => false

/-- Type assertion err.(ErrorRecoverable) (recoverable.go): Ae always
implements the interface and reports its recoverable field. -/
def recoverableCap : Err → Option Bool
  | .nil => none
  | .ae d => some d.recoverable
  | .foreign f => f.recoverableCap

/-- Type assertion err.(ErrorExitCode) (exit-code file, part of the unnamed
sources): Ae always implements the interface and reports its exitCode field. -/
def exitCodeCap : Err → Option Int
  | .nil => none
  | .ae d => some d.exitCode
  | .foreign f => f.exitCodeCap

mutual

/-- Model of the method Ae.Error (ae.go lines 123-145): the message, then a
single cause after a colon, or a bracketed semicolon-separated cause list.
Foreign errors return their generic text. Calling Error on a nil error would
be a nil-interface panic in Go; the model returns the empty string and no
theorem relies on that case. -/
def errString (e : Err) : String :=
  match e with
  | .nil => ""
  | .foreign f => f.errText
  | .ae d =>
    match hc : d.causes with
    | [] => d.msg
    | [c] => d.msg ++ ": " ++ errString c
    | cs => d.msg ++ ": " ++ "[" ++ errStringJoin cs ++ "]"
termination_by sizeOf e
decreasing_by
  all_goals (cases d; simp_all; try omega)

/-- Semicolon join over the cause list inside Ae.Error. -/
def errStringJoin (l : List Err) : String :=
  match l with
  | [] => ""
  | [c] => errString c
  | c :: cs => errString c ++ "; " ++ errStringJoin cs
termination_by sizeOf l
decreasing_by
  all_goals (simp; try omega)

end

/-- Probe Message (message.go): the ErrorMessage capability if implemented,
otherwise the generic Error() text; empty for nil. -/
def Message : Err → String
  | .nil => ""
  | .ae d => d.msg
  | .foreign f =>
    match f.msgCap with
    | some m => m
    | none => errString (.foreign f)

/-- Probe UserMessage (usermessage.go): the ErrorUserMessage capability if
implemented, otherwise empty. -/
def UserMessage : Err → String
  | .nil => ""
  | .ae d => d.userMsg
  | .foreign f => (f.userMsgCap).getD ""

/-- Probe Hint (stacks.go appendix): the ErrorHint capability if implemented,
otherwise empty. -/
def Hint : Err → String
  | .nil => ""
  | .ae d => d.hint
  | .foreign f => (f.hintCap).getD ""

/-- Probe Code (part of the unnamed sources): the ErrorCode capability if
implemented, otherwise empty. -/
def Code : Err → String
  | .nil => ""
  | .ae d => d.code
  | .foreign f => (f.codeCap).getD ""

/-- Probe TraceId (spanid.go): the ErrorTraceId capability if implemented,
otherwise empty. -/
def TraceId : Err → String
  | .nil => ""
  | .ae d => d.traceId
  | .foreign f => (f.traceIdCap).getD ""

/-- Probe SpanId (spanid.go): the ErrorSpanId capability if implemented,
otherwise empty. -/
def SpanId : Err → String
  | .nil => ""
  | .ae d => d.spanId
  | .foreign f => (f.spanIdCap).getD ""

/-- Iteration-order oracle for Go maps: the runtime presents the keys of a map
in an unspecified order, modelled as a function applied to the canonical key
list at each point where the order is observed. -/
def KeyOrder : Type := List String → List String

/-- Probe Tags (tags file of the unnamed sources): Ae.ErrorTags collects the
keys of its tag map in runtime order, modelled by the oracle. A foreign error
returns its own list; absent capability yields nil. -/
def Tags (ko : KeyOrder) : Err → List String
  | .nil => []
  | .ae d => ko d.tags
  | .foreign f =>
    match f.tagsCap with
    | some ts => ts
    | none => []

/-- Probe Attributes (attributes file of the unnamed sources): the map
content; an absent capability or a nil map yields the empty map. Iteration
order is applied by consumers, not here, exactly as in Go where the probe
returns the map itself. -/
def Attributes : Err → List (String × String)
  | .nil => []
  | .ae d => d.attributes
  | .foreign f => (f.attrsCap).getD []

/-- Probe Causes (causes portion of message.go): the ErrorCauses capability,
else Unwrap returning a list, else Unwrap returning a single error wrapped in
a one-element list, else the legacy Cause convention, else empty. -/
def Causes : Err → List Err
  | .nil => []
  | .ae d => d.causes
  | .foreign f =>
    match f.causesCap with
    | some cs => cs
    | none =>
      match f.unwrapMany with
      | some cs => cs
      | none =>
        match f.unwrapOne with
        | some c => [c]
        | none =>
          match f.legacyCause with
          | some c => [c]
          | none => []

/-- Probe Related (related.go): the ErrorRelated capability if implemented,
otherwise nil. -/
def Related : Err → List Err
  | .nil => []
  | .ae d => d.related
  | .foreign f =>
    match f.relatedCap with
    | some rs => rs
    | none => []

/-- Probe Stacks (stacks.go): the ErrorStacks capability if implemented,
otherwise nil. -/
def Stacks : Err → List Stack
  | .nil => []
  | .ae d => d.stackTraces
  | .foreign f =>
    match f.stacksCap with
    | some ss => ss
    | none => []

theorem sizeOf_causes_lt {e : Err} (he : isNil e = false) :
    sizeOf (Causes e) < sizeOf e := by
  cases e with
  | nil => simp [isNil] at he
  | ae d =>
    simp only [Causes]
    cases d; simp; omega
  | foreign f =>
    simp only [Causes]
    cases hcc : f.causesCap with
    | some cs => cases f; simp_all; omega
    | none =>
      cases hum : f.unwrapMany with
      | some cs => cases f; simp_all; omega
      | none =>
        cases huo : f.unwrapOne with
        | some c => cases f; simp_all; omega
        | none =>
          cases hlc : f.legacyCause with
          | some c => cases f; simp_all; omega
          | none => cases f; simp_all; try omega

theorem sizeOf_related_lt {e : Err} (he : isNil e = false) :
    sizeOf (Related e) < sizeOf e := by
  cases e with
  | nil => simp [isNil] at he
  | ae d =>
    simp only [Related]
    cases d; simp; omega
  | foreign f =>
    simp only [Related]
    cases hrc : f.relatedCap with
    | some rs => cases f; simp_all; omega
    | none => cases f; simp_all; try omega

mutual

/-- Model of IsRecoverable (recoverable.go lines 20-36): nil is recoverable; a
declared false short-circuits to false; otherwise the error is recoverable
exactly when every probed cause is recursively recoverable. -/
def IsRecoverable (err : Err) : Bool :=
  if isNil err then true
  else if (recoverableCap err).isSome && !((recoverableCap err).getD true) then false
  else IsRecoverableAll (Causes err)
termination_by sizeOf err
decreasing_by
  have := sizeOf_causes_lt (show isNil err = false by simp_all)
  omega

/-- The for-loop of IsRecoverable over the cause list, returning false at the
first non-recoverable cause. -/
def IsRecoverableAll (causes : List Err) : Bool :=
  match causes with
  | [] => true
  | c :: cs => if !IsRecoverable c then false else IsRecoverableAll cs
termination_by sizeOf causes
decreasing_by
  all_goals (simp; try omega)

end

mutual

/-- Model of ExitCode (exit-code file of the unnamed sources, lines 14-31):
nil yields 0; a declared positive exit code is returned outright; otherwise
the maximum exit code over the probed causes, starting from the default 1. -/
def ExitCode (err : Err) : Int :=
  if isNil err then 0
  else
    match exitCodeCap err with
    | some ec => if 0 < ec then ec else exitCodeMax (Causes err) 1
    | none => exitCodeMax (Causes err) 1
termination_by sizeOf err
decreasing_by
  all_goals
    (have hq := sizeOf_causes_lt (show isNil err = false by simp_all)
     omega)

/-- The for-loop of ExitCode: keep the running maximum of the recursive exit
codes of the causes. -/
def exitCodeMax (causes : List Err) (acc : Int) : Int :=
  match causes with
  | [] => acc
  | c :: cs => exitCodeMax cs (if acc < ExitCode c then ExitCode c else acc)
termination_by sizeOf causes
decreasing_by
  all_goals (simp; try omega)

end

mutual

/-- Specification-side predicate for claim C5: no node of the cause tree
declares a positive exit code through the ErrorExitCode capability. -/
def noExitDeclared (e : Err) : Bool :=
  if isNil e then true
  else
    match exitCodeCap e with
    | some ec => if 0 < ec then false else noExitDeclaredAll (Causes e)
    | none => noExitDeclaredAll (Causes e)
termination_by sizeOf e
decreasing_by
  all_goals
    (have hq := sizeOf_causes_lt (show isNil e = false by simp_all)
     omega)

/-- Conjunction of noExitDeclared over a list of errors. -/
def noExitDeclaredAll (l : List Err) : Bool :=
  match l with
  | [] => true
  | c :: cs => noExitDeclared c && noExitDeclaredAll cs
termination_by sizeOf l
decreasing_by
  all_goals (simp; try omega)

end

/-- The builder (builder.go line 13) is the Ae record itself: type Builder Ae. -/
def Builder : Type := AeData Err

/-- Model of New (builder.go lines 16-21): a builder whose fields are the Go
zero values, with the tag and attribute maps initialised empty. The
recoverable field is the zero value false, since New does not touch it and no
mutator of the builder ever sets it. -/
def New : Builder :=
  { msg := ""
    userMsg := ""
    hint := ""
    recoverable := false
    timestamp := 0
    code := ""
    exitCode := 0
    traceId := ""
    spanId := ""
    tags := []
    attributes := []
    causes := []
    related := []
    stackTraces := [] }

/-- Model of Ae.clone (ae.go lines 164-174): copy of the record with every
container cloned; on immutable data the clone is field-for-field equal. -/
def clone (a : AeData Err) : AeData Err :=
  { msg := a.msg
    userMsg := a.userMsg
    hint := a.hint
    recoverable := a.recoverable
    timestamp := a.timestamp
    code := a.code
    exitCode := a.exitCode
    traceId := a.traceId
    spanId := a.spanId
    tags := a.tags
    attributes := a.attributes
    causes := a.causes
    related := a.related
    stackTraces := a.stackTraces }

/-- Insertion of the tags returned by a foreign ErrorTags capability into a
fresh tag map, preserving first-occurrence order and dropping duplicates,
mirroring the loop in From that writes each tag into a new Go map. -/
def insertTags (ts : List String) : List String :=
  ts.foldl (fun acc t => if acc.contains t then acc else acc ++ [t]) []

/-- Model of From (builder.go lines 30-86): nil yields a fresh builder; the
library type is cloned wholesale; a foreign error is probed capability by
capability, each present capability overwriting the corresponding zero field
of a fresh builder. From never consults the generic Error() text and never
reads the ErrorRecoverable, Unwrap or Cause conventions. -/
def From (err : Err) : Builder :=
  if isNil err then New
  else
    match err with
    | .nil => New
    | .ae d => clone d
    | .foreign f =>
      { msg := (f.msgCap).getD New.msg
        userMsg := (f.userMsgCap).getD New.userMsg
        hint := (f.hintCap).getD New.hint
        recoverable := New.recoverable
        timestamp := (f.timestampCap).getD New.timestamp
        code := (f.codeCap).getD New.code
        exitCode := (f.exitCodeCap).getD New.exitCode
        traceId := (f.traceIdCap).getD New.traceId
        spanId := (f.spanIdCap).getD New.spanId
        tags :=
          match f.tagsCap with
          | some ts => insertTags ts
          | none => New.tags
        attributes := (f.attrsCap).getD New.attributes
        causes := (f.causesCap).getD New.causes
        related := (f.relatedCap).getD New.related
        stackTraces := (f.stacksCap).getD New.stackTraces }

/-- Model of Builder.Msg (builder.go lines 253-256): the terminal operation
sets the message and freezes the builder state into an error value of the
library type. -/
def Builder.Msg (b : Builder) (msg : String) : Err :=
  .ae { b with msg := msg }

/-- Model of Builder.Causes (builder.go lines 175-183): append the given
causes, dropping nil entries. -/
def Builder.Causes (b : Builder) (causes : List Err) : Builder :=
  { b with causes := b.causes ++ causes.filter (fun c => !isNil c) }

/-- Accessor Ae.ErrorIsRecoverable (ae.go lines 66-68). -/
def ErrorIsRecoverable (d : AeData Err) : Bool :=
  d.recoverable

namespace Errors

/-- The panic raised by indexing an empty Go slice at position zero. -/
def indexPanic : String := "runtime error: index out of range [0] with length 0"

/-- Model of Join (errors/errors.go lines 21-51). The function filters nil
arguments into filtered but switches on the length of the unfiltered list:
with no arguments it returns nil, with exactly one argument it returns the
first element of filtered, and otherwise it freezes a new error whose causes
are filtered and whose message joins the Error() texts in brackets. Indexing
filtered when it is empty is a Go runtime panic, modelled by Except.error. -/
def Join (errs : List Err) : Except String Err :=
  let filtered := errs.filter (fun e => !isNil e)
  match errs.length with
  | 0 => .ok .nil
  | 1 =>
    match filtered with
    | [] => .error indexPanic
    | f :: _ => .ok f
  | _ =>
    let msg := "[" ++ String.intercalate "; " (filtered.map errString) ++ "]"
    .ok (Builder.Msg (Builder.Causes New filtered) msg)

end Errors

/-- Renderer configuration (printer struct): the boolean toggles and numeric
settings written by the option functions of printer_option.go and read by
printer_text.go and the JSON back end. The Go field stacks is called
stacksFlag here because stacks is a reserved word in this environment. -/
structure Printer where
  colors : Bool := false
  json : Bool := false
  indent : Int := 2
  maxDepth : Int := -1
  userMsg : Bool := false
  hint : Bool := false
  timestamp : Bool := false
  code : Bool := false
  exitCode : Bool := false
  traceId : Bool := false
  spanId : Bool := false
  tags : Bool := false
  attributes : Bool := false
  causes : Bool := false
  related : Bool := false
  stacksFlag : Bool := false

/-- Identifiers of the color values of printer_text.go lines 10-20. -/
inductive ColorId where
  | symbol | msgC | usrMsg | tag | attrKey | attrVal | hintC | codeC

/-- External collaborator: the terminal styling applied by the color library
when colors are enabled. Its exact output is outside this core, so every
renderer function is parametric in it. -/
def Colorize : Type := ColorId → String → String

/-- Model of Printer.fmt (printer_text.go lines 176-182) for calls without
format arguments: style the string when colors are on, otherwise return it
unchanged. -/
def Printer.fmt (p : Printer) (col : Colorize) (s : String) (c : ColorId) : String :=
  if p.colors then col c s else s

/-- Model of strings.Repeat applied to a single space. -/
def spaces (n : Int) : String :=
  String.mk (List.replicate n.toNat ' ')

/-- Model of formatErrorLine (printer_text.go lines 23-74): optional bracketed
code and exit code, the message, an optional tag list, an optional hint. -/
def formatErrorLine (p : Printer) (ko : KeyOrder) (col : Colorize) (err : Err) : String :=
  let codeStr := Code err
  let codeOpen : Bool := p.code && codeStr != ""
  let sCode :=
    if codeOpen then Printer.fmt p col "\x7b" .codeC ++ Printer.fmt p col codeStr .codeC
    else ""
  let ec := ExitCode err
  let sExit :=
    if p.exitCode && decide (0 < ec) then Printer.fmt p col ("/" ++ toString ec) .codeC
    else ""
  let sClose := if codeOpen then Printer.fmt p col "\x7d " .codeC else ""
  let sMsg := Printer.fmt p col (Message err) .msgC
  let tagList := Tags ko err
  let sTags :=
    if p.tags && decide (0 < tagList.length) then
      " [" ++ String.intercalate ", " (tagList.map (fun t => Printer.fmt p col t .tag)) ++ "]"
    else ""
  let hintStr := Hint err
  let sHint :=
    if p.hint && hintStr != "" then " (" ++ Printer.fmt p col hintStr .hintC ++ ")"
    else ""
  sCode ++ sExit ++ sClose ++ sMsg ++ sTags ++ sHint

/-- Model of formatAttributeLine (printer_text.go lines 77-79). The value is
rendered through Printer.fmt with a format argument, so with colors disabled
the literal format string is returned instead of the value, exactly as the
source does. -/
def formatAttributeLine (p : Printer) (col : Colorize) (indent : Int)
    (key value : String) : String :=
  spaces indent ++ "-> " ++ Printer.fmt p col key .attrKey ++ ": " ++
    (if p.colors then col .attrVal value else "%v")

/-- Overwrite-or-append update of an attribute map entry, the effect of a Go
map assignment. -/
def assocSet (m : List (String × String)) (k v : String) : List (String × String) :=
  if m.any (fun kv => kv.1 == k) then m.map (fun kv => if kv.1 == k then (k, v) else kv)
  else m ++ [(k, v)]

theorem sizeOf_causes_lt_of_len {c : Err} (h : 0 < (Causes c).length) :
    sizeOf (Causes c) < sizeOf c := by
  apply sizeOf_causes_lt
  cases c with
  | nil => simp [Causes] at h
  | ae d => rfl
  | foreign f => rfl

/-- Model of Printer.printErrorCauses (printer_text.go lines 82-105): one line
per cause with tree branch markers, recursing into the probed causes of each
cause while the depth is below the configured bound, cutting off silently
otherwise. The string-builder argument is modelled by returning the appended
text. -/
def printErrorCauses (p : Printer) (ko : KeyOrder) (col : Colorize)
    (causes : List Err) (depth : Int) (pfx : String) : String :=
  match causes with
  | [] => ""
  | c :: cs =>
    let isLast := cs.isEmpty
    let branch := if isLast then "└─ " else "├─ "
    let nextPfx := pfx ++ (if isLast then "   " else "│  ")
    let line := pfx ++ branch ++ formatErrorLine p ko col c ++ "\n"
    let nested := Causes c
    let sub :=
      if h : 0 < nested.length ∧ (p.maxDepth < 0 ∨ depth < p.maxDepth) then
        printErrorCauses p ko col nested (depth + 1) nextPfx
      else ""
    line ++ sub ++ printErrorCauses p ko col cs depth pfx
termination_by sizeOf causes
decreasing_by
  all_goals first
    | (have hq := sizeOf_causes_lt_of_len h.1; simp only [List.cons.sizeOf_spec]; omega)
    | (simp only [List.cons.sizeOf_spec]; omega)

/-- Goroutine frame lines of the stack section of PrintErrorText. -/
def renderFrames (p : Printer) (col : Colorize) : List StackFrame → String
  | [] => ""
  | fr :: rest =>
    let pfx := if rest.isEmpty then "└─ " else "├─ "
    spaces (p.indent * 2) ++ pfx ++ Printer.fmt p col (fr.func ++ "\n") .codeC ++
      spaces (p.indent * 2) ++ "   " ++
      Printer.fmt p col ("at " ++ fr.file ++ ":" ++ toString fr.line ++ "\n") .codeC ++
      renderFrames p col rest

/-- Goroutine id of a stack snapshot. -/
def Stack.gid : Stack → Int
  | .mk i _ _ _ _ _ _ _ => i

/-- Scheduler state of a stack snapshot. -/
def Stack.state : Stack → String
  | .mk _ st _ _ _ _ _ _ => st

/-- Frames of a stack snapshot. -/
def Stack.frames : Stack → List StackFrame
  | .mk _ _ _ _ fr _ _ _ => fr

/-- Goroutine entries of the stack section of PrintErrorText; the last entry
takes the closing branch marker. -/
def renderStacks (p : Printer) (col : Colorize) : List Stack → String
  | [] => ""
  | st :: rest =>
    let pfx := if rest.isEmpty then "└─ " else "├─ "
    spaces p.indent ++ pfx ++
      Printer.fmt p col
        ("Goroutine " ++ toString st.gid ++ " (" ++ st.state ++ "):\n") .codeC ++
      renderFrames p col st.frames ++ renderStacks p col rest

/-- Model of Printer.PrintErrorText (printer_text.go lines 108-174): the
formatted error line, then attribute lines assembled from the attribute map
plus optional trace and span entries and emitted in map iteration order, then
the bounded causes tree with its one-time Causes: header, then the stack
section. -/
def PrintErrorText (p : Printer) (ko : KeyOrder) (col : Colorize)
    (err : Err) (depth : Int) : String :=
  let s0 := formatErrorLine p ko col err
  let attrs0 := if p.attributes then Attributes err else []
  let attrs1 :=
    if p.traceId ∧ TraceId err ≠ "" then assocSet attrs0 "Trace ID" (TraceId err) else attrs0
  let attrs2 :=
    if p.spanId ∧ SpanId err ≠ "" then assocSet attrs1 "Span ID" (SpanId err) else attrs1
  let sAttrs :=
    if 0 < attrs2.length then
      ((ko (attrs2.map Prod.fst)).map
        (fun k => "\n" ++ formatAttributeLine p col p.indent k ((attrs2.lookup k).getD ""))).foldl
        (fun a b => a ++ b) ""
    else ""
  let sCauses :=
    if p.causes ∧ (p.maxDepth < 0 ∨ depth < p.maxDepth) then
      let cs := Causes err
      if 0 < cs.length then
        (if depth = 0 then "\nCauses:\n" else "") ++ printErrorCauses p ko col cs (depth + 1) ""
      else ""
    else ""
  let sStacks :=
    if p.stacksFlag then
      let sts := Stacks err
      if 0 < sts.length then Printer.fmt p col "Stack Traces:\n" .codeC ++ renderStacks p col sts
      else ""
    else ""
  s0 ++ sAttrs ++ sCauses ++ sStacks

/-- Field record of the JSON node struct jsonError (JSON back end, lines
8-21), parametric in the node type to close the recursion through the causes
and related lists. The Go field stacks is called stackList here because
stacks is a reserved word in this environment. -/
structure jsonErrorF (j : Type) where
  message : String
  userMessage : String
  hint : String
  code : String
  exitCode : Int
  traceId : String
  spanId : String
  tags : List String
  attrs : List (String × String)
  causes : List j
  related : List j
  stackList : List Stack

/-- A JSON node of the JSON back end. -/
inductive jsonError where
  | mk (f : jsonErrorF jsonError) : jsonError

/-- Field record of a JSON node. -/
def jsonError.fields : jsonError → jsonErrorF jsonError
  | .mk f => f

theorem sizeOf_causes_le (e : Err) : sizeOf (Causes e) ≤ sizeOf e := by
  cases hn : isNil e
  · exact le_of_lt (sizeOf_causes_lt hn)
  · cases e <;> simp_all [isNil, Causes]

theorem sizeOf_related_le (e : Err) : sizeOf (Related e) ≤ sizeOf e := by
  cases hn : isNil e
  · exact le_of_lt (sizeOf_related_lt hn)
  · cases e <;> simp_all [isNil, Related]

mutual

/-- Model of Printer.toJsonError (JSON back end, lines 30-61): probe every
field of the node, and recurse into the probed causes and related lists while
the depth is below the configured bound, leaving both lists empty otherwise. -/
def toJsonError (p : Printer) (ko : KeyOrder) (err : Err) (depth : Int) : jsonError :=
  let causesJ :=
    if p.maxDepth < 0 ∨ depth < p.maxDepth then toJsonErrorList p ko (Causes err) (depth + 1)
    else []
  let relatedJ :=
    if p.maxDepth < 0 ∨ depth < p.maxDepth then toJsonErrorList p ko (Related err) (depth + 1)
    else []
  .mk
    { message := Message err
      userMessage := UserMessage err
      hint := Hint err
      code := Code err
      exitCode := ExitCode err
      traceId := TraceId err
      spanId := SpanId err
      tags := Tags ko err
      attrs := Attributes err
      causes := causesJ
      related := relatedJ
      stackList := Stacks err }
termination_by 2 * sizeOf err + 1
decreasing_by
  all_goals first
    | (have hq := sizeOf_causes_le err; omega)
    | (have hq := sizeOf_related_le err; omega)

/-- The append loops of toJsonError over the cause and related lists. -/
def toJsonErrorList (p : Printer) (ko : KeyOrder) (errs : List Err) (depth : Int) :
    List jsonError :=
  match errs with
  | [] => []
  | e :: es => toJsonError p ko e depth :: toJsonErrorList p ko es depth
termination_by 2 * sizeOf errs
decreasing_by
  all_goals (simp only [List.cons.sizeOf_spec]; omega)

end

/-- JSON values appearing in the fields of a rendered node. -/
inductive JVal where
  | s (v : String)
  | n (v : Int)
  | strs (v : List String)
  | amap (v : List (String × String))
  | errs (v : List jsonError)
  | stks (v : List Stack)

/-- Model of the encoding/json emission of one jsonError node: the fields in
struct order under their fixed lowercase names, each omitted when it holds
the empty value of its type, following the omitempty tags of the struct. -/
def jsonFields (je : jsonError) : List (String × JVal) :=
  let f := je.fields
  (if f.message = "" then [] else [("message", JVal.s f.message)]) ++
  (if f.userMessage = "" then [] else [("user_message", JVal.s f.userMessage)]) ++
  (if f.hint = "" then [] else [("hint", JVal.s f.hint)]) ++
  (if f.code = "" then [] else [("code", JVal.s f.code)]) ++
  (if f.exitCode = 0 then [] else [("exit_code", JVal.n f.exitCode)]) ++
  (if f.traceId = "" then [] else [("trace_id", JVal.s f.traceId)]) ++
  (if f.spanId = "" then [] else [("span_id", JVal.s f.spanId)]) ++
  (if f.tags.length = 0 then [] else [("tags", JVal.strs f.tags)]) ++
  (if f.attrs.length = 0 then [] else [("attrs", JVal.amap f.attrs)]) ++
  (if f.causes.length = 0 then [] else [("causes", JVal.errs f.causes)]) ++
  (if f.related.length = 0 then [] else [("related", JVal.errs f.related)]) ++
  (if f.stackList.length = 0 then [] else [("stacks", JVal.stks f.stackList)])

/-- The fixed field names of the JSON rendering schema. -/
def jsonFieldNames : List String :=
  ["message", "user_message", "hint", "code", "exit_code", "trace_id", "span_id",
   "tags", "attrs", "causes", "related", "stacks"]

/-- Modelled from the spec: depth-bounded rendering of a causes tree with the
remaining depth budget as explicit fuel. A subtree is entered only while fuel
remains, so no node deeper than the initial fuel can contribute a line and no
placeholder is emitted at the cut. -/
def specCausesText (p : Printer) (ko : KeyOrder) (col : Colorize)
    (fuel : Nat) (causes : List Err) (pfx : String) : String :=
  match causes with
  | [] => ""
  | c :: cs =>
    let isLast := cs.isEmpty
    let branch := if isLast then "└─ " else "├─ "
    let nextPfx := pfx ++ (if isLast then "   " else "│  ")
    let line := pfx ++ branch ++ formatErrorLine p ko col c ++ "\n"
    let sub :=
      if h : 0 < (Causes c).length ∧ 0 < fuel then
        specCausesText p ko col (fuel - 1) (Causes c) nextPfx
      else ""
    line ++ sub ++ specCausesText p ko col fuel cs pfx
termination_by (fuel, sizeOf causes)
decreasing_by
  · exact Prod.Lex.left _ _ (by omega)
  · exact Prod.Lex.right _ (by simp only [List.cons.sizeOf_spec]; omega)

mutual

/-- Modelled from the spec: depth-bounded JSON tree with the remaining depth
budget as explicit fuel; cause and related children exist only while fuel
remains. -/
def specJsonBounded (p : Printer) (ko : KeyOrder) (fuel : Nat) (err : Err) : jsonError :=
  .mk
    { message := Message err
      userMessage := UserMessage err
      hint := Hint err
      code := Code err
      exitCode := ExitCode err
      traceId := TraceId err
      spanId := SpanId err
      tags := Tags ko err
      attrs := Attributes err
      causes :=
        if h : 0 < fuel then specJsonBoundedList p ko (fuel - 1) (Causes err) else []
      related :=
        if h : 0 < fuel then specJsonBoundedList p ko (fuel - 1) (Related err) else []
      stackList := Stacks err }
termination_by (fuel, 2 * sizeOf err + 1)

/-- List form of specJsonBounded. -/
def specJsonBoundedList (p : Printer) (ko : KeyOrder) (fuel : Nat) (errs : List Err) :
    List jsonError :=
  match errs with
  | [] => []
  | e :: es => specJsonBounded p ko fuel e :: specJsonBoundedList p ko fuel es
termination_by (fuel, 2 * sizeOf errs)

end

mutual

/-- Nesting depth of the causes and related children of a JSON node: zero for
a node without children. -/
def jdepth (je : jsonError) : Nat :=
  match je with
  | .mk f => max (jdepthList f.causes) (jdepthList f.related)
termination_by sizeOf je
decreasing_by
  all_goals (cases f; simp; omega)

/-- Largest nesting depth contributed by a list of child nodes, each child
counting one level. -/
def jdepthList (l : List jsonError) : Nat :=
  match l with
  | [] => 0
  | j :: js => max (1 + jdepth j) (jdepthList js)
termination_by sizeOf l
decreasing_by
  all_goals (simp only [List.cons.sizeOf_spec]; omega)

end

theorem isRecoverableAll_eq_all (l : List Err) :
    IsRecoverableAll l = l.all IsRecoverable := by
  induction l with
  | nil => simp [IsRecoverableAll]
  | cons c cs ih =>
    rw [IsRecoverableAll]
    cases h : IsRecoverable c <;> simp [h, ih]

theorem isRecoverable_nil : IsRecoverable Err.nil = true := by
  simp [IsRecoverable, isNil]

theorem isRecoverable_declared_false {e : Err} (h : recoverableCap e = some false) :
    IsRecoverable e = false := by
  have hn : isNil e = false := by
    cases e with
    | nil => simp [recoverableCap] at h
    | ae d => rfl
    | foreign f => rfl
  rw [IsRecoverable]
  simp [hn, h]

theorem isRecoverable_not_declared_false {e : Err} (hn : isNil e = false)
    (h : recoverableCap e ≠ some false) :
    IsRecoverable e = (Causes e).all IsRecoverable := by
  rw [IsRecoverable]
  have hcond : ((recoverableCap e).isSome && !((recoverableCap e).getD true)) = false := by
    cases hc : recoverableCap e with
    | none => simp
    | some b => cases b with
      | false => exact absurd hc h
      | true => simp
  simp [hn, hcond, isRecoverableAll_eq_all]

theorem exitCode_nil : ExitCode Err.nil = 0 := by
  simp [ExitCode, isNil]

theorem exitCode_declared_pos {e : Err} {ec : Int} (h : exitCodeCap e = some ec)
    (hpos : 0 < ec) : ExitCode e = ec := by
  have hn : isNil e = false := by
    cases e with
    | nil => simp [exitCodeCap] at h
    | ae d => rfl
    | foreign f => rfl
  rw [ExitCode]
  simp [hn, h, hpos]

theorem exitCodeMax_mono (l : List Err) : ∀ acc : Int, acc ≤ exitCodeMax l acc := by
  induction l with
  | nil => intro acc; simp [exitCodeMax]
  | cons c cs ih =>
    intro acc
    rw [exitCodeMax]
    have h1 : acc ≤ (if acc < ExitCode c then ExitCode c else acc) := by
      split <;> omega
    exact le_trans h1 (ih _)

theorem exitCodeMax_le (l : List Err) : ∀ (acc b : Int),
    (∀ c ∈ l, ExitCode c ≤ b) → acc ≤ b → exitCodeMax l acc ≤ b := by
  induction l with
  | nil => intro acc b _ hab; simpa [exitCodeMax] using hab
  | cons c cs ih =>
    intro acc b hmem hab
    rw [exitCodeMax]
    apply ih
    · intro x hx; exact hmem x (List.mem_cons_of_mem _ hx)
    · have := hmem c (List.mem_cons_self c cs)
      split <;> omega

theorem exitCode_ge_one {e : Err} (hn : isNil e = false) : 1 ≤ ExitCode e := by
  rw [ExitCode]
  simp only [hn, Bool.false_eq_true, if_false]
  cases hc : exitCodeCap e with
  | none => exact exitCodeMax_mono _ 1
  | some ec =>
    by_cases hpos : 0 < ec
    · simp [hpos]; omega
    · simp [hpos]; exact exitCodeMax_mono _ 1

theorem noExitDeclaredAll_mem {l : List Err} {c : Err} (hall : noExitDeclaredAll l = true)
    (hc : c ∈ l) : noExitDeclared c = true := by
  induction l with
  | nil => simp at hc
  | cons x xs ih =>
    rw [noExitDeclaredAll, Bool.and_eq_true] at hall
    rcases List.mem_cons.mp hc with h | h
    · subst h; exact hall.1
    · exact ih hall.2 h

theorem sizeOf_mem_causes_lt {c e : Err} (hn : isNil e = false) (hc : c ∈ Causes e) :
    sizeOf c < sizeOf e :=
  lt_trans (List.sizeOf_lt_of_mem hc) (sizeOf_causes_lt hn)

theorem exitCode_noExitDeclared (e : Err) (hno : noExitDeclared e = true) :
    ExitCode e = if isNil e then (0 : Int) else 1 := by
  have main : ∀ (n : Nat) (e : Err), sizeOf e ≤ n → noExitDeclared e = true →
      ExitCode e = if isNil e then (0 : Int) else 1 := by
    intro n
    induction n with
    | zero => intro e hsz; exfalso; cases e <;> simp at hsz
    | succ n ih =>
      intro e hsz hno
      cases hn : isNil e with
      | true =>
        cases e with
        | nil => simp [exitCode_nil]
        | ae d => simp [isNil] at hn
        | foreign f => simp [isNil] at hn
      | false =>
        have hmax : exitCodeMax (Causes e) 1 = 1 := by
          apply le_antisymm
          · apply exitCodeMax_le
            · intro c hc
              have hsc : sizeOf c ≤ n := by
                have := sizeOf_mem_causes_lt hn hc
                omega
              have hcno : noExitDeclared c = true := by
                rw [noExitDeclared] at hno
                simp only [hn, Bool.false_eq_true, if_false] at hno
                rcases hcc : exitCodeCap e with _ | ec
                · rw [hcc] at hno
                  exact noExitDeclaredAll_mem hno hc
                · rw [hcc] at hno
                  rcases hpos : decide (0 < ec) with _ | _
                  · simp [of_decide_eq_false hpos] at hno
                    exact noExitDeclaredAll_mem hno hc
                  · simp [of_decide_eq_true hpos] at hno
              rw [ih c hsc hcno]
              split <;> omega
            · omega
          · exact exitCodeMax_mono _ 1
        rw [ExitCode]
        simp only [hn, Bool.false_eq_true, if_false]
        cases hcc : exitCodeCap e with
        | none => simp [hmax]
        | some ec =>
          have hecle : ¬ (0 < ec) := by
            rw [noExitDeclared] at hno
            simp only [hn, Bool.false_eq_true, if_false, hcc] at hno
            intro hpos
            simp [hpos] at hno
          simp [hecle, hmax]
  exact main (sizeOf e) e le_rfl hno

theorem printErrorCauses_eq_spec (p : Printer) (ko : KeyOrder) (col : Colorize)
    (hmd : 0 ≤ p.maxDepth) :
    ∀ (causes : List Err) (depth : Int) (pfx : String),
      printErrorCauses p ko col causes depth pfx
        = specCausesText p ko col (p.maxDepth - depth).toNat causes pfx := by
  have main : ∀ (n : Nat) (causes : List Err), sizeOf causes ≤ n →
      ∀ (depth : Int) (pfx : String),
        printErrorCauses p ko col causes depth pfx
          = specCausesText p ko col (p.maxDepth - depth).toNat causes pfx := by
    intro n
    induction n with
    | zero => intro causes hsz; exfalso; cases causes <;> simp at hsz
    | succ n ih =>
      intro causes hsz depth pfx
      cases causes with
      | nil => rw [printErrorCauses, specCausesText]
      | cons c cs =>
        have hcs : sizeOf cs ≤ n := by simp only [List.cons.sizeOf_spec] at hsz; omega
        have htail := ih cs hcs depth pfx
        rw [printErrorCauses, specCausesText]
        by_cases hA : 0 < (Causes c).length
        · by_cases hB : depth < p.maxDepth
          · have hT1 : 0 < (Causes c).length ∧ (p.maxDepth < 0 ∨ depth < p.maxDepth) :=
              ⟨hA, Or.inr hB⟩
            have hT2 : 0 < (Causes c).length ∧ 0 < (p.maxDepth - depth).toNat :=
              ⟨hA, by omega⟩
            have hsubsize : sizeOf (Causes c) ≤ n := by
              have h1 := sizeOf_causes_lt_of_len hA
              simp only [List.cons.sizeOf_spec] at hsz; omega
            have hsub := ih (Causes c) hsubsize (depth + 1)
              (pfx ++ if cs.isEmpty then "   " else "│  ")
            have hstep : (p.maxDepth - (depth + 1)).toNat = (p.maxDepth - depth).toNat - 1 := by
              omega
            simp only [dif_pos hT1, dif_pos hT2, htail, hsub, hstep]
          · have hF1 : ¬ (0 < (Causes c).length ∧ (p.maxDepth < 0 ∨ depth < p.maxDepth)) := by
              rintro ⟨h1, h2 | h2⟩ <;> omega
            have hF2 : ¬ (0 < (Causes c).length ∧ 0 < (p.maxDepth - depth).toNat) := by
              rintro ⟨h1, h2⟩; omega
            simp only [dif_neg hF1, dif_neg hF2, htail]
        · have hF1 : ¬ (0 < (Causes c).length ∧ (p.maxDepth < 0 ∨ depth < p.maxDepth)) := by
            rintro ⟨h1, h2⟩; exact hA h1
          have hF2 : ¬ (0 < (Causes c).length ∧ 0 < (p.maxDepth - depth).toNat) := by
            rintro ⟨h1, h2⟩; exact hA h1
          simp only [dif_neg hF1, dif_neg hF2, htail]
  intro causes depth pfx
  exact main (sizeOf causes) causes le_rfl depth pfx

theorem toJsonError_eq_spec (p : Printer) (ko : KeyOrder) (hmd : 0 ≤ p.maxDepth) :
    ∀ (e : Err) (depth : Int),
      toJsonError p ko e depth = specJsonBounded p ko (p.maxDepth - depth).toNat e := by
  have main : ∀ (n : Nat),
      (∀ (e : Err), 2 * sizeOf e + 1 ≤ n → ∀ (depth : Int),
        toJsonError p ko e depth = specJsonBounded p ko (p.maxDepth - depth).toNat e)
      ∧ (∀ (l : List Err), 2 * sizeOf l ≤ n → ∀ (depth : Int),
        toJsonErrorList p ko l depth = specJsonBoundedList p ko (p.maxDepth - depth).toNat l) := by
    intro n
    induction n with
    | zero =>
      constructor
      · intro e hsz; omega
      · intro l hsz; exfalso; cases l <;> simp at hsz
    | succ n ih =>
      constructor
      · intro e hsz depth
        rw [toJsonError, specJsonBounded]
        have hlist1 : toJsonErrorList p ko (Causes e) (depth + 1)
            = specJsonBoundedList p ko (p.maxDepth - (depth + 1)).toNat (Causes e) := by
          apply ih.2
          have := sizeOf_causes_le e; omega
        have hlist2 : toJsonErrorList p ko (Related e) (depth + 1)
            = specJsonBoundedList p ko (p.maxDepth - (depth + 1)).toNat (Related e) := by
          apply ih.2
          have := sizeOf_related_le e; omega
        have hstep : (p.maxDepth - (depth + 1)).toNat = (p.maxDepth - depth).toNat - 1 := by
          omega
        by_cases hd : depth < p.maxDepth
        · have hc1 : p.maxDepth < 0 ∨ depth < p.maxDepth := Or.inr hd
          have hc2 : 0 < (p.maxDepth - depth).toNat := by omega
          simp only [if_pos hc1, dif_pos hc2, hlist1, hlist2, hstep]
        · have hc1 : ¬ (p.maxDepth < 0 ∨ depth < p.maxDepth) := by omega
          have hc2 : ¬ (0 < (p.maxDepth - depth).toNat) := by omega
          simp only [if_neg hc1, dif_neg hc2]
      · intro l hsz depth
        cases l with
        | nil => rw [toJsonErrorList, specJsonBoundedList]
        | cons e es =>
          rw [toJsonErrorList, specJsonBoundedList]
          have h1 := ih.1 e (by simp only [List.cons.sizeOf_spec] at hsz; omega) depth
          have h2 := ih.2 es (by simp only [List.cons.sizeOf_spec] at hsz; omega) depth
          rw [h1, h2]
  intro e depth
  exact (main (2 * sizeOf e + 1)).1 e le_rfl depth

theorem jdepth_specJson_le (p : Printer) (ko : KeyOrder) :
    ∀ (fuel : Nat) (e : Err), jdepth (specJsonBounded p ko fuel e) ≤ fuel := by
  have main : ∀ (fuel : Nat),
      (∀ e, jdepth (specJsonBounded p ko fuel e) ≤ fuel)
      ∧ (∀ l, jdepthList (specJsonBoundedList p ko fuel l) ≤ fuel + 1) := by
    intro fuel
    induction fuel with
    | zero =>
      have hel : ∀ e, jdepth (specJsonBounded p ko 0 e) ≤ 0 := by
        intro e
        rw [specJsonBounded, jdepth]
        simp [jdepthList]
      refine ⟨hel, ?_⟩
      intro l
      induction l with
      | nil => simp [specJsonBoundedList, jdepthList]
      | cons e es ihl =>
        rw [specJsonBoundedList, jdepthList]
        have := hel e
        simp only [Nat.max_le]
        exact ⟨by omega, ihl⟩
    | succ k ihk =>
      have hel : ∀ e, jdepth (specJsonBounded p ko (k + 1) e) ≤ k + 1 := by
        intro e
        rw [specJsonBounded, jdepth]
        have h1 := ihk.2 (Causes e)
        have h2 := ihk.2 (Related e)
        have hpos : 0 < k + 1 := Nat.succ_pos k
        simp only [dif_pos hpos, Nat.add_sub_cancel, Nat.max_le]
        exact ⟨h1, h2⟩
      refine ⟨hel, ?_⟩
      intro l
      induction l with
      | nil => simp [specJsonBoundedList, jdepthList]
      | cons e es ihl =>
        rw [specJsonBoundedList, jdepthList]
        have := hel e
        simp only [Nat.max_le]
        exact ⟨by omega, ihl⟩
  intro fuel e
  exact (main fuel).1 e

/-- The identity iteration order. -/
def idKo : KeyOrder := fun l => l

/-- The reversed iteration order, a permutation the Go runtime is free to
present. -/
def revKo : KeyOrder := fun l => l.reverse

/-- A colorizer that leaves strings unchanged; irrelevant whenever the colors
toggle is off. -/
def plainCol : Colorize := fun _ s => s

/-- Three-level cause chain: root, one first-level cause, one second-level
cause. -/
def chainLeaf : Err := .ae { msg := "leaf" }

/-- Middle node of the three-level chain. -/
def chainMid : Err := .ae { msg := "mid", causes := [chainLeaf] }

/-- Root of the three-level chain. -/
def chainRoot : Err := .ae { msg := "root", causes := [chainMid] }

/-- Renderer configuration with causes enabled and max depth one. -/
def pDepth1 : Printer := { causes := true, maxDepth := 1 }

/-- An error carrying two tags. -/
def twoTags : Err := .ae { msg := "m", tags := ["a", "b"] }

/-- Renderer configuration with only the tag section enabled. -/
def pTags : Printer := { tags := true }

/-- An error built without touching the exit code or recoverability. -/
def eNoExit : Err := .ae { msg := "x" }

/-- An error declaring exit code 9. -/
def e59cause : Err := .ae { msg := "inner", exitCode := 9 }

/-- An error declaring exit code 5 whose single cause declares 9. -/
def e59 : Err := .ae { msg := "outer", exitCode := 5, causes := [e59cause] }

/-- A recoverable cause. -/
def wRec1 : Err := .ae { msg := "c1", recoverable := true }

/-- A non-recoverable cause. -/
def wRec2 : Err := .ae { msg := "c2", recoverable := false }

/-- An error declaring itself recoverable with causes wRec1 and wRec2. -/
def wRecE : Err := .ae { msg := "e", recoverable := true, causes := [wRec1, wRec2] }

/-- A foreign error satisfying none of the capability interfaces, as a plain
text-message error built with the standard errors package would. -/
def plainBoom : ForeignData Err := { errText := "boom" }

/-- Capability check: the foreign error implements none of the optional
interfaces of the package. -/
def noCaps (f : ForeignData Err) : Bool :=
  f.msgCap.isNone && f.userMsgCap.isNone && f.hintCap.isNone && f.codeCap.isNone &&
  f.traceIdCap.isNone && f.spanIdCap.isNone && f.recoverableCap.isNone &&
  f.exitCodeCap.isNone && f.timestampCap.isNone && f.tagsCap.isNone &&
  f.attrsCap.isNone && f.causesCap.isNone && f.unwrapMany.isNone && f.unwrapOne.isNone &&
  f.legacyCause.isNone && f.relatedCap.isNone && f.stacksCap.isNone

/-- C1: IsRecoverable returns true on the nil error; returns false immediately
when the error itself declares non-recoverable, regardless of causes;
otherwise returns true exactly when IsRecoverable holds recursively for every
probed cause; and on any error whose causes are a recoverable c1 followed by a
non-recoverable c2 it returns false. -/
theorem C1_recoverability_contract :
    IsRecoverable Err.nil = true
    ∧ (∀ e : Err, recoverableCap e = some false → IsRecoverable e = false)
    ∧ (∀ e : Err, isNil e = false → recoverableCap e ≠ some false →
        IsRecoverable e = (Causes e).all IsRecoverable)
    ∧ (∀ e c1 c2 : Err, Causes e = [c1, c2] → IsRecoverable c1 = true →
        IsRecoverable c2 = false → IsRecoverable e = false) := by
  refine ⟨isRecoverable_nil, fun e h => isRecoverable_declared_false h,
    fun e hn h => isRecoverable_not_declared_false hn h, ?_⟩
  intro e c1 c2 hC h1 h2
  by_cases hdecl : recoverableCap e = some false
  · exact isRecoverable_declared_false hdecl
  · have hn : isNil e = false := by
      cases e with
      | nil => simp [Causes] at hC
      | ae d => rfl
      | foreign f => rfl
    rw [isRecoverable_not_declared_false hn hdecl, hC]
    simp [h1, h2]

/-- Witness for C1 at a concrete tree with causes that are recoverable and
non-recoverable respectively. -/
theorem C1_recoverability_witness :
    Causes wRecE = [wRec1, wRec2]
    ∧ IsRecoverable wRec1 = true
    ∧ IsRecoverable wRec2 = false
    ∧ IsRecoverable wRecE = false := by
  refine ⟨rfl, ?_, ?_, ?_⟩
  · simp [IsRecoverable, IsRecoverableAll, isNil, recoverableCap, Causes, wRec1]
  · simp [IsRecoverable, isNil, recoverableCap, wRec2]
  · exact C1_recoverability_contract.2.2.2 wRecE wRec1 wRec2 rfl
      (by simp [IsRecoverable, IsRecoverableAll, isNil, recoverableCap, Causes, wRec1])
      (by simp [IsRecoverable, isNil, recoverableCap, wRec2])

/-- C2 counterexample: on an error declaring exit code 5 with a cause
declaring 9, ExitCode returns 5, not the maximum 9 the claim asserts, because
a declared positive exit code short-circuits before causes are consulted. -/
theorem C2_exitCode_counterexample : ExitCode e59 = 5 ∧ ExitCode e59 ≠ 9 := by
  have h : ExitCode e59 = 5 := by
    simp [ExitCode, isNil, exitCodeCap, e59]
  exact ⟨h, by rw [h]; decide⟩

/-- C2 as amended: a declared positive exit code wins outright; the maximum
over the causes is consulted only when the node itself declares none; in the
5 versus 9 scenario the result is 5. -/
theorem C2_exitCode_self_wins :
    (∀ (e : Err) (ec : Int), exitCodeCap e = some ec → 0 < ec → ExitCode e = ec)
    ∧ ExitCode e59 = 5 := by
  refine ⟨fun e ec h hpos => exitCode_declared_pos h hpos, ?_⟩
  simp [ExitCode, isNil, exitCodeCap, e59]

/-- Witness for C2 at the concrete 5 versus 9 tree. -/
theorem C2_exitCode_witness :
    exitCodeCap e59 = some 5 ∧ 0 < (5 : Int) ∧ ExitCode e59 = 5 :=
  ⟨rfl, by decide, C2_exitCode_self_wins.1 e59 5 rfl (by decide)⟩

/-- C3: contrary to the claim, an error frozen by the builder without any
mutator touching recoverability declares itself non-recoverable — the
recoverable field keeps the zero value false set by New, no builder mutator
can change it, and IsRecoverable of the frozen value is therefore false. -/
theorem C3_recoverable_default_false :
    ∀ (m : String),
      recoverableCap (Builder.Msg New m) = some false
      ∧ IsRecoverable (Builder.Msg New m) = false := by
  intro m
  exact ⟨rfl, isRecoverable_declared_false rfl⟩

/-- C4 counterexample: absorbing a plain foreign error with From leaves the
builder message empty; it does not fall back to the generic Error() text the
claim asserts, because From only reads the ErrorMessage capability. -/
theorem C4_from_counterexample :
    Message (.foreign plainBoom) = "boom"
    ∧ (From (.foreign plainBoom)).msg = ""
    ∧ (From (.foreign plainBoom)).msg ≠ Message (.foreign plainBoom) := by
  have hmsg : Message (.foreign plainBoom) = "boom" := by
    simp [Message, plainBoom, errString]
  refine ⟨hmsg, rfl, ?_⟩
  rw [hmsg]
  intro h
  simp [From, isNil, New, plainBoom] at h

/-- C4 as amended: From is total, and on an error satisfying none of the
capability interfaces it returns exactly the fresh builder New — in
particular the message is the empty string, not the generic description. -/
theorem C4_from_no_caps :
    ∀ (f : ForeignData Err), noCaps f = true → From (.foreign f) = New := by
  intro f h
  obtain ⟨et, mc, umc, hc2, cc, tc, sc, rc, ec, tsc, tgc, ac, cac, um, uo, lc, rlc, stc⟩ := f
  simp only [noCaps, Bool.and_eq_true, Option.isNone_iff_eq_none] at h
  simp_all [From, isNil, New]

/-- Witness for C4 at the plain foreign error. -/
theorem C4_from_witness :
    noCaps plainBoom = true ∧ From (.foreign plainBoom) = New :=
  ⟨rfl, C4_from_no_caps plainBoom rfl⟩

/-- C5: ExitCode of the nil error is 0; ExitCode of a non-nil error whose
cause tree declares no positive exit code anywhere is the default 1; and
ExitCode of every non-nil error is at least 1. -/
theorem C5_exitCode_defaults :
    ExitCode Err.nil = 0
    ∧ (∀ e : Err, isNil e = false → noExitDeclared e = true → ExitCode e = 1)
    ∧ (∀ e : Err, isNil e = false → 1 ≤ ExitCode e) := by
  refine ⟨exitCode_nil, ?_, fun e hn => exitCode_ge_one hn⟩
  intro e hn hno
  have h := exitCode_noExitDeclared e hno
  simpa [hn] using h

/-- Witness for C5 at a concrete error with no declared exit code. -/
theorem C5_exitCode_witness :
    isNil eNoExit = false
    ∧ noExitDeclared eNoExit = true
    ∧ ExitCode eNoExit = 1
    ∧ 1 ≤ ExitCode eNoExit := by
  have hno : noExitDeclared eNoExit = true := by
    simp [noExitDeclared, noExitDeclaredAll, isNil, exitCodeCap, Causes, eNoExit]
  exact ⟨rfl, hno, C5_exitCode_defaults.2.1 eNoExit rfl hno,
    C5_exitCode_defaults.2.2 eNoExit rfl⟩

/-- C8: reconstructing a builder from a frozen value of the library type with
From and freezing it again with the value's own message reproduces the value,
field for field. -/
theorem C8_roundtrip :
    ∀ (d : AeData Err), Builder.Msg (From (.ae d)) (Message (.ae d)) = .ae d := by
  intro d
  cases d
  rfl

/-- C10: the Join of the errors subpackage is not total — with the single
argument nil it indexes the empty filtered slice and panics, where the claim
and its own documentation require nil; and with two nil arguments it returns
a non-nil bracketed error instead of nil. -/
theorem C10_join_panics :
    Errors.Join [Err.nil] = Except.error Errors.indexPanic
    ∧ Errors.Join [] = Except.ok Err.nil
    ∧ Errors.Join [Err.nil, Err.nil] ≠ Except.ok Err.nil := by
  refine ⟨rfl, rfl, ?_⟩
  simp [Errors.Join, Builder.Msg, Builder.Causes, New, isNil]

/-- Renderer configuration with JSON output selected and unbounded depth. -/
def pJson : Printer := { json := true }

/-- Emptiness of a JSON field value, the notion omitempty tests. -/
def JValIsEmpty : JVal → Bool
  | .s v => v == ""
  | .n v => v == 0
  | .strs v => v.length == 0
  | .amap v => v.length == 0
  | .errs v => v.length == 0
  | .stks v => v.length == 0

theorem mem_omit {α : Type} {x y : α} {c : Prop} [Decidable c]
    (h : x ∈ (if c then ([] : List α) else [y])) : ¬ c ∧ x = y := by
  split at h
  · simp at h
  · exact ⟨by assumption, by simpa using h⟩

/-- C6: both renderer back ends include cause nodes only to the configured
non-negative max depth. The JSON tree built for any error nests causes and
related children at most maxDepth levels; the text cause renderer coincides
with a fuel-bounded rendering whose budget is maxDepth minus the current
depth, so no node beyond the bound contributes output and nothing is emitted
in its place; and on a three-level chain with max depth one, both back ends
render exactly the root and the first-level cause, with no marker for the
deeper node. -/
theorem C6_depth_bound :
    (∀ (p : Printer) (ko : KeyOrder) (e : Err), 0 ≤ p.maxDepth →
      jdepth (toJsonError p ko e 0) ≤ p.maxDepth.toNat)
    ∧ (∀ (p : Printer) (ko : KeyOrder) (col : Colorize), 0 ≤ p.maxDepth →
      ∀ (causes : List Err) (depth : Int) (pfx : String),
        printErrorCauses p ko col causes depth pfx
          = specCausesText p ko col (p.maxDepth - depth).toNat causes pfx)
    ∧ PrintErrorText pDepth1 idKo plainCol chainRoot 0 = "root\nCauses:\n└─ mid\n"
    ∧ toJsonError pDepth1 idKo chainRoot 0 = .mk
        { message := "root", userMessage := "", hint := "", code := "", exitCode := 1,
          traceId := "", spanId := "", tags := [], attrs := [],
          causes := [.mk
            { message := "mid", userMessage := "", hint := "", code := "", exitCode := 1,
              traceId := "", spanId := "", tags := [], attrs := [], causes := [],
              related := [], stackList := [] }],
          related := [], stackList := [] } := by
  refine ⟨?_, ?_, ?_, ?_⟩
  · intro p ko e hmd
    rw [toJsonError_eq_spec p ko hmd e 0]
    have h := jdepth_specJson_le p ko (p.maxDepth - 0).toNat e
    simpa using h
  · intro p ko col hmd
    exact printErrorCauses_eq_spec p ko col hmd
  · simp [PrintErrorText, printErrorCauses, formatErrorLine, Message, Code, Hint, Tags,
      ExitCode, exitCodeMax, exitCodeCap, isNil, Causes, Attributes, TraceId, SpanId, Stacks,
      assocSet, Printer.fmt, chainRoot, chainMid, chainLeaf, pDepth1, idKo, plainCol]
  · simp [toJsonError, toJsonErrorList, Message, UserMessage, Hint, Code, ExitCode,
      exitCodeMax, TraceId, SpanId, Tags, Attributes, Causes, Related, Stacks, isNil,
      exitCodeCap, chainRoot, chainMid, chainLeaf, pDepth1, idKo]

/-- Witness for C6 at the three-level chain under max depth one. -/
theorem C6_depth_bound_witness :
    (0 ≤ pDepth1.maxDepth
      ∧ jdepth (toJsonError pDepth1 idKo chainRoot 0) ≤ pDepth1.maxDepth.toNat)
    ∧ printErrorCauses pDepth1 idKo plainCol [chainMid] 1 ""
        = specCausesText pDepth1 idKo plainCol (pDepth1.maxDepth - 1).toNat [chainMid] "" :=
  ⟨⟨by decide, C6_depth_bound.1 pDepth1 idKo chainRoot (by decide)⟩,
    C6_depth_bound.2.1 pDepth1 idKo plainCol (by decide) [chainMid] 1 ""⟩

/-- C7 counterexample: a node with no declared exit code still carries an
exit_code field in the JSON output, because the renderer stores the probed
aggregate, which defaults to 1 and is never the omitted zero for a non-nil
node. -/
theorem C7_json_counterexample :
    noExitDeclared eNoExit = true
    ∧ "exit_code" ∈ (jsonFields (toJsonError pJson idKo eNoExit 0)).map Prod.fst := by
  constructor
  · simp [noExitDeclared, noExitDeclaredAll, isNil, exitCodeCap, Causes, eNoExit]
  · simp [toJsonError, toJsonErrorList, jsonFields, jsonError.fields, Message, UserMessage,
      Hint, Code, ExitCode, exitCodeMax, TraceId, SpanId, Tags, Attributes, Causes, Related,
      Stacks, isNil, exitCodeCap, eNoExit, pJson, idKo]

/-- C7 as amended: the JSON renderer emits only the fixed field names, every
emitted field holds a non-empty value, and the exit_code field is present on
every non-nil node with the probed aggregate exit code, which is at least 1 —
so a node with no declared exit code carries exit_code 1 rather than omitting
the field. -/
theorem C7_json_fields :
    (∀ (je : jsonError) (x : String × JVal), x ∈ jsonFields je → x.1 ∈ jsonFieldNames)
    ∧ (∀ (p : Printer) (ko : KeyOrder) (e : Err) (depth : Int), isNil e = false →
        ("exit_code", JVal.n (ExitCode e)) ∈ jsonFields (toJsonError p ko e depth)
        ∧ 1 ≤ ExitCode e)
    ∧ (∀ (je : jsonError) (x : String × JVal), x ∈ jsonFields je →
        JValIsEmpty x.2 = false) := by
  refine ⟨?_, ?_, ?_⟩
  · intro je x hx
    rcases je with ⟨f⟩
    simp only [jsonFields, jsonError.fields, List.mem_append] at hx
    rcases hx with ((((((((((hx | hx) | hx) | hx) | hx) | hx) | hx) | hx) | hx) | hx) | hx) | hx <;>
      (cases (mem_omit hx).2; simp [jsonFieldNames])
  · intro p ko e depth hn
    have hge := exitCode_ge_one hn
    refine ⟨?_, hge⟩
    rw [toJsonError]
    have hne : ¬ (ExitCode e = 0) := by omega
    simp [jsonFields, jsonError.fields, hne]
  · intro je x hx
    rcases je with ⟨f⟩
    simp only [jsonFields, jsonError.fields, List.mem_append] at hx
    rcases hx with ((((((((((hx | hx) | hx) | hx) | hx) | hx) | hx) | hx) | hx) | hx) | hx) | hx <;>
      (obtain ⟨hc, rfl⟩ := mem_omit hx; simp [JValIsEmpty, hc])

/-- Witness for C7 at a concrete node without a declared exit code. -/
theorem C7_json_fields_witness :
    isNil eNoExit = false
    ∧ ("exit_code", JVal.n (ExitCode eNoExit)) ∈ jsonFields (toJsonError pJson idKo eNoExit 0)
    ∧ 1 ≤ ExitCode eNoExit :=
  ⟨rfl, C7_json_fields.2.1 pJson idKo eNoExit 0 rfl⟩

/-- C9: rendering is not a function of the frozen value and the configuration
alone — with two tags the text renderer emits the tag list in Go map
iteration order, so the runs with the identity order and with the reversed
order, both orders the runtime may present, produce different bytes. -/
theorem C9_render_map_order :
    PrintErrorText pTags idKo plainCol twoTags 0
      ≠ PrintErrorText pTags revKo plainCol twoTags 0 := by
  simp [PrintErrorText, printErrorCauses, formatErrorLine, Message, Code, Hint, Tags,
    ExitCode, exitCodeMax, exitCodeCap, isNil, Causes, Attributes, TraceId, SpanId, Stacks,
    assocSet, Printer.fmt, twoTags, pTags, idKo, revKo, plainCol]
  decide

end AeSpec
